import Mathlib

/-!
Verification of the querystore columnar storage engine (store.go, query.go,
util.go) against its natural-language specification.

Modelling conventions, chosen to mirror the Go source:
* Go `int64` values are modelled as `Int`; wherever Go performs a conversion
  to `uint64` or wraps on overflow, an explicit `% 2^64` (or `wrap64`) appears.
* Go `float64` values are modelled by their IEEE-754 bit patterns (`Nat`
  below `2^64`); `math.Float64bits`/`math.Float64frombits` are then the
  identity, and IEEE equality / ordering on non-NaN patterns is defined
  exactly on the bit level (`floatEqBits`, `floatLtBits`).
* Go `string` values are modelled as their byte sequences (`List Nat`).
* Files are byte lists; `os.File.Read` into a fresh zeroed buffer is
  `readBytes` (zero padding on a short read, `io.EOF` only on an empty
  stream, matching file semantics).
* A Go runtime panic (type assertion failure, negative `make` length,
  nil-pointer dereference, backward-seek check) is a distinguished `crash`
  outcome, kept separate from returned `error` values.
-/

set_option maxRecDepth 8000

/-- The four column types of the store (`ColumnType` in store.go). -/
inductive ColumnType where
  | bool
  | int64
  | float64
  | str
deriving DecidableEq

/-- A Go runtime value of one of the kinds the store supports.  All Go
integer widths are collapsed into `vInt` (the encoder converts every
integer width through `toUint64`, and literals in queries behave as
`int64` after that conversion); `vFloat` carries an IEEE-754 bit
pattern. -/
inductive GoValue where
  | vBool (b : Bool)
  | vInt (i : Int)
  | vFloat (bits : Nat)
  | vStr (s : List Nat)
deriving DecidableEq

/-- Errors returned (as Go `error` values) by the modelled operations. -/
inductive GoError where
  | eof
  | reservedName (name : String)
  | writeFailed (name : String)
deriving DecidableEq

/-- `binary.LittleEndian.PutUint64` restricted to `k` bytes:
byte `i` is `(n / 256^i) % 256`. -/
def putLE : Nat → Nat → List Nat
  | 0, _ => []
  | k + 1, n => (n % 256) :: putLE k (n / 256)

/-- `binary.LittleEndian.PutUint64`. -/
def putUint64LE (n : Nat) : List Nat := putLE 8 n

/-- `binary.LittleEndian.PutUint16`. -/
def putUint16LE (n : Nat) : List Nat := putLE 2 n

/-- Little-endian byte-list decoding (least significant byte first). -/
def getLE : List Nat → Nat
  | [] => 0
  | b :: rest => b + 256 * getLE rest

/-- `binary.LittleEndian.Uint64` of the first 8 bytes of a buffer. -/
def getUint64LE (bs : List Nat) : Nat := getLE (bs.take 8)

/-- `binary.LittleEndian.Uint16` of the first 2 bytes of a buffer. -/
def getUint16LE (bs : List Nat) : Nat := getLE (bs.take 2)

/-- The bit pattern of a Go `int64` viewed as `uint64` (`uint64(index)`). -/
def toUint64Bits (i : Int) : Nat := (i % (2 ^ 64 : Int)).toNat

/-- Reinterpret a `uint64` bit pattern as a Go `int64`
(`int64(binary.LittleEndian.Uint64 …)`). -/
def int64OfUint64 (n : Nat) : Int :=
  if n < 2 ^ 63 then (n : Int) else (n : Int) - 2 ^ 64

/-- Reinterpret a `uint16` bit pattern as a Go `int16`
(the `int16(binary.LittleEndian.Uint16 …)` cast in the string decoder). -/
def int16OfUint16 (n : Nat) : Int :=
  if n < 2 ^ 15 then (n : Int) else (n : Int) - 2 ^ 16

/-- Go `int64` wrap-around on increment (`fs.nextID += 1`). -/
def wrap64 (i : Int) : Int := (i + 2 ^ 63) % 2 ^ 64 - 2 ^ 63

/-- `ColumnHandle.IndexedWrite` from store.go: the bytes appended for one
(row-id, value) entry, or `none` when the Go code would panic on a type
assertion (`v.(bool)`, `v.(string)`) or in `toUint64` / `toFloat64`. -/
def indexedWriteData : ColumnType → Int → GoValue → Option (List Nat)
  | .bool, index, .vBool b =>
      some (putUint64LE (toUint64Bits index) ++ [if b then 1 else 0])
  | .bool, _, _ => none
  | .int64, index, .vInt v =>
      some (putUint64LE (toUint64Bits index) ++ putUint64LE (toUint64Bits v))
  | .int64, _, _ => none
  | .float64, index, .vFloat bits =>
      some (putUint64LE (toUint64Bits index) ++ putUint64LE bits)
  | .float64, _, _ => none
  | .str, index, .vStr s =>
      some (putUint64LE (toUint64Bits index) ++ putUint16LE (s.length % 2 ^ 16) ++ s)
  | .str, _, _ => none

/-- `valueColumnType` from util.go (the `default` branch maps every other
runtime type to the string column type; our value domain has no such
values). -/
def valueColumnType : GoValue → ColumnType
  | .vBool _ => .bool
  | .vStr _ => .str
  | .vInt _ => .int64
  | .vFloat _ => .float64

/-- NaN test on an IEEE-754 double bit pattern: exponent field all ones and
non-zero mantissa. -/
def floatIsNaN (n : Nat) : Bool := (n / 2 ^ 52) % 2 ^ 11 == 2 ^ 11 - 1 && n % 2 ^ 52 != 0

/-- Go `==` on `float64`, on bit patterns: false when either operand is NaN,
`+0` equals `-0`, and otherwise distinct bit patterns are distinct values. -/
def floatEqBits (a b : Nat) : Bool :=
  !floatIsNaN a && !floatIsNaN b && (a % 2 ^ 63 == 0 && b % 2 ^ 63 == 0 || a == b)

/-- Sign-magnitude key realising the numeric order of non-NaN IEEE-754
doubles from their bit patterns (both zeros map to 0). -/
def floatKey (n : Nat) : Int :=
  if n < 2 ^ 63 then (n : Int) else -(((n - 2 ^ 63 : Nat) : Int))

/-- Go `<` on `float64`, on bit patterns (false when either is NaN). -/
def floatLtBits (a b : Nat) : Bool :=
  !floatIsNaN a && !floatIsNaN b && decide (floatKey a < floatKey b)

/-- `ConditionType` from query.go. -/
inductive ConditionType where
  | equals
  | notEquals
  | lessThan
  | greaterThan
deriving DecidableEq

/-- `ConditionalFunc` from query.go.  The result is `none` when the Go
closure would panic on its `a.(T)` / `b.(T)` type assertions. -/
def ConditionalFunc := GoValue → GoValue → Option Bool

/-- `anyEquals[bool]()`. -/
def anyEqualsBool : ConditionalFunc := fun a b =>
  match a, b with
  | .vBool x, .vBool y => some (x == y)
  | _, _ => none

/-- `anyEquals[int64]()`. -/
def anyEqualsInt64 : ConditionalFunc := fun a b =>
  match a, b with
  | .vInt x, .vInt y => some (decide (x = y))
  | _, _ => none

/-- `anyEquals[float64]()` (Go `==` is IEEE equality). -/
def anyEqualsFloat64 : ConditionalFunc := fun a b =>
  match a, b with
  | .vFloat x, .vFloat y => some (floatEqBits x y)
  | _, _ => none

/-- `anyEquals[string]()`. -/
def anyEqualsString : ConditionalFunc := fun a b =>
  match a, b with
  | .vStr x, .vStr y => some (decide (x = y))
  | _, _ => none

/-- `anyNotEquals[bool]()`. -/
def anyNotEqualsBool : ConditionalFunc := fun a b =>
  match a, b with
  | .vBool x, .vBool y => some (!(x == y))
  | _, _ => none

/-- `anyNotEquals[int64]()`. -/
def anyNotEqualsInt64 : ConditionalFunc := fun a b =>
  match a, b with
  | .vInt x, .vInt y => some (!decide (x = y))
  | _, _ => none

/-- `anyNotEquals[float64]()` (Go `!=` is the negation of IEEE `==`). -/
def anyNotEqualsFloat64 : ConditionalFunc := fun a b =>
  match a, b with
  | .vFloat x, .vFloat y => some (!floatEqBits x y)
  | _, _ => none

/-- `anyNotEquals[string]()`. -/
def anyNotEqualsString : ConditionalFunc := fun a b =>
  match a, b with
  | .vStr x, .vStr y => some (!decide (x = y))
  | _, _ => none

/-- The `ConditionLessThan` closure for `int64`. -/
def lessThanInt64 : ConditionalFunc := fun a b =>
  match a, b with
  | .vInt x, .vInt y => some (decide (x < y))
  | _, _ => none

/-- The `ConditionLessThan` closure for `float64`. -/
def lessThanFloat64 : ConditionalFunc := fun a b =>
  match a, b with
  | .vFloat x, .vFloat y => some (floatLtBits x y)
  | _, _ => none

/-- The `conditionals` comparison matrix from query.go, as written there:
a missing cell of the nested Go map is `none` (looking one up and calling
it would be a nil-function-call panic). -/
def conditionals : ConditionType → ColumnType → Option ConditionalFunc
  | .equals, .bool => some anyEqualsBool
  | .equals, .int64 => some anyEqualsInt64
  | .equals, .float64 => some anyEqualsFloat64
  | .equals, .str => some anyEqualsString
  | .notEquals, .bool => some anyNotEqualsBool
  | .notEquals, .int64 => some anyNotEqualsInt64
  | .notEquals, .float64 => some anyNotEqualsFloat64
  | .notEquals, .str => some anyNotEqualsString
  | .lessThan, .int64 => some lessThanInt64
  | .lessThan, .float64 => some lessThanFloat64
  | .lessThan, _ => none
  | .greaterThan, .int64 => some anyNotEqualsInt64
  | .greaterThan, .float64 => some anyNotEqualsFloat64
  | .greaterThan, .str => some anyNotEqualsString
  | .greaterThan, .bool => none

/-- One `fp.Read(buf)` into a fresh zeroed buffer of size `k`: on an empty
stream the buffer stays zeroed and the error is `io.EOF`; otherwise up to
`k` bytes are copied (a short read leaves the zero tail) with no error.
Returns (buffer contents, remaining stream, reached-EOF flag). -/
def readBytes (k : Nat) (s : List Nat) : List Nat × List Nat × Bool :=
  if s.isEmpty then (List.replicate k 0, s, true)
  else (s.take k ++ List.replicate (k - (s.take k).length) 0, s.drop k, false)

/-- The possible results of the entry-decoding section of
`ColumnReader.SeekToIndex` (store.go lines 111-147). -/
inductive DecodeOut where
  | entry (idx : Int) (v : GoValue) (rest : List Nat)
  | eofNil (rest : List Nat)
  | eofErr (rest : List Nat)
  | negLen
deriving DecidableEq

/-- The decoding section of `ColumnReader.SeekToIndex`, per column type:
* string: read 10 header bytes, reinterpret the unsigned 16-bit length as
  `int16`, `make([]byte, len)` (a negative length panics: `negLen`), read
  the payload, and only then check the header-read error (`eofErr` — the
  string path has no `io.EOF` → absent case);
* bool / int64 / float64: read the fixed-size record; `io.EOF` becomes the
  nil-value, nil-error return (`eofNil`). -/
def decodeEntry : ColumnType → List Nat → DecodeOut
  | .str, s =>
      let r1 := readBytes 10 s
      let idx := int64OfUint64 (getUint64LE r1.1)
      let len := int16OfUint16 (getUint16LE (r1.1.drop 8))
      if len < 0 then .negLen
      else
        let r2 := readBytes len.toNat r1.2.1
        if r1.2.2 then .eofErr r2.2.1
        else .entry idx (.vStr r2.1) r2.2.1
  | .bool, s =>
      let r := readBytes 9 s
      if r.2.2 then .eofNil r.2.1
      else .entry (int64OfUint64 (getUint64LE r.1)) (.vBool (r.1.getD 8 0 == 1)) r.2.1
  | .int64, s =>
      let r := readBytes 16 s
      if r.2.2 then .eofNil r.2.1
      else .entry (int64OfUint64 (getUint64LE r.1)) (.vInt (int64OfUint64 (getUint64LE (r.1.drop 8)))) r.2.1
  | .float64, s =>
      let r := readBytes 16 s
      if r.2.2 then .eofNil r.2.1
      else .entry (int64OfUint64 (getUint64LE r.1)) (.vFloat (getUint64LE (r.1.drop 8))) r.2.1

/-- `ColumnReader` from store.go: the read cursor (remaining file bytes),
the column type, and the one-entry lookahead cache `curIndex` / `curVal`
(`curIndex` is initialised to `-1` by `createReader`). -/
structure ColumnReader where
  stream : List Nat
  typ : ColumnType
  curIndex : Int
  curVal : Option GoValue
deriving DecidableEq

/-- The outcome of one `SeekToIndex` call: a returned value (`ok (some v)`),
the nil-value / nil-error "absent" return (`ok none`), a returned error, or
a runtime panic (the backward-seek check, or the negative `make` length in
the string decoder). -/
inductive SeekOutcome where
  | ok (v : Option GoValue)
  | fail (e : GoError)
  | crashBackward
  | crashMakeSlice
deriving DecidableEq

/-- `ColumnReader.createReader`: a fresh reader positioned at offset 0. -/
def mkReader (typ : ColumnType) (file : List Nat) : ColumnReader :=
  ⟨file, typ, -1, none⟩

/-- `ColumnReader.SeekToIndex` from store.go, returning the call's outcome
and the updated reader state. -/
def seekToIndex (cr : ColumnReader) (targetIndex : Int) : SeekOutcome × ColumnReader :=
  if targetIndex < cr.curIndex then (.crashBackward, cr)
  else if targetIndex = cr.curIndex then (.ok cr.curVal, cr)
  else
    match decodeEntry cr.typ cr.stream with
    | .negLen => (.crashMakeSlice, cr)
    | .eofNil rest => (.ok none, { cr with stream := rest })
    | .eofErr rest => (.fail .eof, { cr with stream := rest })
    | .entry idx v rest =>
        if idx = targetIndex then (.ok (some v), { cr with stream := rest })
        else if idx > targetIndex then
          (.ok none, { cr with stream := rest, curIndex := idx, curVal := some v })
        else (.ok none, { cr with stream := rest })

/-- Successive `SeekToIndex` calls on one reader; a returned error or a
panic aborts the sequence (its outcome is the last element). -/
def runSeeks (cr : ColumnReader) : List Int → List SeekOutcome
  | [] => []
  | t :: ts =>
      match seekToIndex cr t with
      | (.ok v, cr2) => .ok v :: runSeeks cr2 ts
      | (o, _) => [o]

/-- The int64 column entry for row-id `i` with value `v`, as written by
`IndexedWrite`. -/
def int64Entry (i v : Int) : List Nat :=
  putUint64LE (toUint64Bits i) ++ putUint64LE (toUint64Bits v)

/-- C1: the claim fails on the code.  For a sparse int64 column with entries
at row-ids {2, 5, 9}, seeking the ascending targets 0,1,…,9 does not return
"absent"/value as claimed: the seek of target 0 overshoots and caches the
entry with row-id 2 in `curIndex`, and the very next call, target 1, then
trips the `targetIndex < cr.curIndex` check and panics
("cannot seek backwards"), aborting the scan. -/
theorem seekAscendingSparseAborts :
    runSeeks (mkReader .int64 (int64Entry 2 20 ++ int64Entry 5 50 ++ int64Entry 9 90))
        [0, 1, 2, 3, 4, 5, 6, 7, 8, 9]
      = [.ok none, .crashBackward] := by decide

/-- C2: the claim fails on the code.  Encoding is per `IndexedWrite` (first
conjunct: the string layout, with the length truncated to 16 unsigned
bits), but the decoder reinterprets that unsigned 16-bit length as `int16`,
so decoding the encoding of a string of length 32768 (here 32768 bytes
`'a'` at row-id 0) executes `make([]byte, -32768)` and panics instead of
round-tripping. -/
theorem decodeEncodeLongStringCrashes :
    (∀ idx g, indexedWriteData .str idx (.vStr g)
        = some (putUint64LE (toUint64Bits idx) ++ putUint16LE (g.length % 2 ^ 16) ++ g))
    ∧ (seekToIndex (mkReader .str
          (putUint64LE (toUint64Bits 0)
            ++ putUint16LE ((List.replicate 32768 97).length % 2 ^ 16)
            ++ List.replicate 32768 97)) 0).1
        = .crashMakeSlice := by
  refine ⟨fun idx g => rfl, ?_⟩
  rw [List.length_replicate]
  rfl

/-- C6: the claim fails on the code.  At end-of-stream, a reader over a
bool, int64 or float64 column returns "absent" with no error (and keeps
doing so for all subsequent targets), but the string path checks the read
error only after decoding, and its `io.EOF` is returned as an error rather
than "absent". -/
theorem eofSeekOutcomes :
    runSeeks (mkReader .int64 []) [0, 1, 2] = [.ok none, .ok none, .ok none]
    ∧ runSeeks (mkReader .bool []) [0, 1] = [.ok none, .ok none]
    ∧ runSeeks (mkReader .float64 []) [0, 1] = [.ok none, .ok none]
    ∧ runSeeks (mkReader .str []) [0, 1] = [.fail .eof] := by decide

/-- C9: counterexample to the claim.  On an int64 column with entries at
row-ids {0, 1, 2}, seeking target 2 first (which silently consumes the
entry with row-id 0 and caches nothing, since 0 < 2) and then the strictly
smaller target 0 does NOT fail with the backward-seek error: both calls
return "absent". -/
theorem backwardSeekUndetected :
    runSeeks (mkReader .int64 (int64Entry 0 10 ++ int64Entry 1 11 ++ int64Entry 2 12))
        [2, 0]
      = [.ok none, .ok none] := by decide

/-- C9 (amended): `SeekToIndex` panics with the backward-seek error exactly
when the target is strictly below the reader's cached lookahead row-id
`curIndex` (initially -1, updated only when a decoded entry overshoots its
target) — not when the target is below some previously requested target. -/
theorem seekAbortIffBelowCachedIndex (cr : ColumnReader) (t : Int) :
    (seekToIndex cr t).1 = SeekOutcome.crashBackward ↔ t < cr.curIndex := by
  unfold seekToIndex
  by_cases h1 : t < cr.curIndex
  · simp [h1]
  · by_cases h2 : t = cr.curIndex
    · simp [h1, h2]
    · simp only [if_neg h1, if_neg h2]
      cases hdec : decodeEntry cr.typ cr.stream with
      | negLen => simp [h1]
      | eofNil rest => simp [h1]
      | eofErr rest => simp [h1]
      | entry idx v rest =>
          by_cases h3 : idx = t
          · simp [h3, h1]
          · by_cases h4 : idx > t
            · simp [h3, h4, h1]
            · simp [h3, h4, h1]

/-- C9 (amended) witness: a reader whose cached lookahead row-id is 2
aborts on the forward-in-time target 1. -/
theorem seekAbortIffBelowCachedIndexWitness :
    (seekToIndex ⟨[], .int64, 2, none⟩ 1).1 = SeekOutcome.crashBackward :=
  (seekAbortIffBelowCachedIndex ⟨[], .int64, 2, none⟩ 1).mpr (by decide)

/-- `indexFileName` from store.go ("__index" + "." + "dat"). -/
def indexFileName : String := "__index.dat"

/-- A `ColumnHandle` together with the current contents of its file
(the file is empty until the first `Write`). -/
structure ColumnHandleM where
  typ : ColumnType
  file : List Nat
deriving DecidableEq

/-- Go map lookup on an association list. -/
def lookupAssoc {α : Type} : List (String × α) → String → Option α
  | [], _ => none
  | (k, v) :: rest, key => if key = k then some v else lookupAssoc rest key

/-- Go map update of an existing key on an association list. -/
def updateAssoc {α : Type} : List (String × α) → String → α → List (String × α)
  | [], _, _ => []
  | (k, v) :: rest, key, nv =>
      if key = k then (k, nv) :: rest else (k, v) :: updateAssoc rest key nv

/-- `ColumnFS` from store.go: the next free row-id, the index file's
contents, and the per-column handles with their file contents (the index
handle is kept separately; `lookupHandle` below re-exposes it under its
map key `"__index.dat"` exactly as the Go `columnHandles` map does). -/
structure ColumnFS where
  nextID : Int
  indexHandle : List Nat
  columnHandles : List (String × ColumnHandleM)
deriving DecidableEq

/-- The `columnHandles` map lookup, including the index handle registered
under `indexFileName` by `OpenColumnFS`. -/
def lookupHandle (fs : ColumnFS) (name : String) : Option ColumnHandleM :=
  if name = indexFileName then some ⟨.int64, fs.indexHandle⟩
  else lookupAssoc fs.columnHandles name

/-- A freshly opened empty store. -/
def emptyFS : ColumnFS := ⟨0, [], []⟩

/-- `strings.HasPrefix(name, "__")`. -/
def isReservedName (s : String) : Bool :=
  match s.data with
  | '_' :: '_' :: _ => true
  | _ => false

/-- The first loop of `ColumnFS.WriteColumns`: per field, reject reserved
names (returning with the handles registered so far) and register a handle
of the inferred column type for every previously-unseen attribute. -/
def registerColumns : ColumnFS → List (String × GoValue) → ColumnFS × Option GoError
  | fs, [] => (fs, none)
  | fs, (name, v) :: rest =>
      if isReservedName name then (fs, some (.reservedName name))
      else
        match lookupAssoc fs.columnHandles name with
        | some _ => registerColumns fs rest
        | none =>
            registerColumns
              { fs with columnHandles :=
                  fs.columnHandles ++ [(name, ⟨valueColumnType v, []⟩)] } rest

/-- Outcome of `WriteColumns`: success, a returned error, or a panic, each
carrying the store state left behind. -/
inductive WriteOutcome where
  | ok (fs : ColumnFS)
  | fail (e : GoError) (fs : ColumnFS)
  | crash (fs : ColumnFS)
deriving DecidableEq

/-- The store state an outcome leaves behind. -/
def WriteOutcome.state : WriteOutcome → ColumnFS
  | .ok fs => fs
  | .fail _ fs => fs
  | .crash fs => fs

/-- The second loop of `WriteColumns`: one `IndexedWrite` per field, in the
given iteration order.  `colOk` injects the success/failure of the
underlying file write (open + write); a failed write returns the error
with the store as it stands, a type-assertion panic in `IndexedWrite` is a
crash, and a (post-registration unreachable) missing handle is the Go
nil-pointer crash. -/
def writeFields (colOk : String → Bool) :
    ColumnFS → Int → List (String × GoValue) → WriteOutcome
  | fs, _, [] => .ok fs
  | fs, index, (name, v) :: rest =>
      match lookupAssoc fs.columnHandles name with
      | none => .crash fs
      | some h =>
          match indexedWriteData h.typ index v with
          | none => .crash fs
          | some bytes =>
              if colOk name then
                writeFields colOk
                  { fs with columnHandles :=
                      updateAssoc fs.columnHandles name ⟨h.typ, h.file ++ bytes⟩ }
                  index rest
              else .fail (.writeFailed name) fs

/-- The 16-byte index entry `(row-id, timestamp)` written per append. -/
def indexEntry (index ts : Int) : List Nat :=
  putUint64LE (toUint64Bits index) ++ putUint64LE (toUint64Bits ts)

/-- `ColumnFS.WriteColumns` from store.go: register/validate the fields,
write the index entry for the current `nextID` (its write success injected
by `indexOk`), write one column entry per field (success injected by
`colOk`), and advance `nextID` only when every write succeeded.  `ts` is
the wall-clock timestamp `time.Now().UnixNano()`. -/
def writeColumns (indexOk : Bool) (colOk : String → Bool) (fs : ColumnFS)
    (fields : List (String × GoValue)) (ts : Int) : WriteOutcome :=
  match registerColumns fs fields with
  | (fs1, some e) => .fail e fs1
  | (fs1, none) =>
      if indexOk then
        let fs2 := { fs1 with indexHandle := fs1.indexHandle ++ indexEntry fs1.nextID ts }
        match writeFields colOk fs2 fs1.nextID fields with
        | .ok fs3 => .ok { fs3 with nextID := wrap64 (fs3.nextID + 1) }
        | r => r
      else .fail (.writeFailed indexFileName) fs1

/-- A sequence of `Append` calls (each `(fields, timestamp)`), all of whose
underlying file writes succeed; `none` if any call returned an error or
panicked. -/
def runAppends : ColumnFS → List (List (String × GoValue) × Int) → Option ColumnFS
  | fs, [] => some fs
  | fs, (fields, ts) :: rest =>
      match writeColumns true (fun _ => true) fs fields ts with
      | .ok fs2 => runAppends fs2 rest
      | _ => none

/-- The row-ids stored in an index file, one per 16-byte entry (the first
8 bytes of each entry, little-endian, reinterpreted as `int64`). -/
def indexRowIds (bs : List Nat) : List Int :=
  if _h : bs.length < 16 then []
  else int64OfUint64 (getUint64LE bs) :: indexRowIds (bs.drop 16)
termination_by bs.length
decreasing_by simp only [List.length_drop]; omega

/-- The next-row-id recovery computation of `OpenColumnFS` (store.go lines
276-281): panic (`none`) unless the index file size is a multiple of 16,
else size / 16. -/
def recoverNextID (bs : List Nat) : Option Int :=
  if bs.length % 16 = 0 then some ((bs.length / 16 : Nat) : Int) else none

/-- `columnSuffixToType` (the inverse of `columnTypeToSuffix` built by
`biMap` in util.go), on the characters of a filename's type suffix. -/
def columnSuffixToType (cs : List Char) : Option ColumnType :=
  if cs = ['b', 'o', 'o', 'l'] then some .bool
  else if cs = ['i', 'n', 't', '6', '4'] then some .int64
  else if cs = ['f', 'l', 'o', 'a', 't', '6', '4'] then some .float64
  else if cs = ['s', 't', 'r'] then some .str
  else none

/-- `strings.HasSuffix(name, "dat")` (the `extension` constant — note the
Go check omits the dot). -/
def hasSuffixDat (name : String) : Bool :=
  name.data.reverse.take 3 = ['t', 'a', 'd']

/-- `strings.TrimSuffix(name, ".dat")` on a filename's characters. -/
def trimSuffixDotDat (cs : List Char) : List Char :=
  if cs.reverse.take 4 = ['t', 'a', 'd', '.'] then cs.take (cs.length - 4) else cs

/-- `strings.Split(s, ".")`. -/
def splitOnDot : List Char → List (List Char)
  | [] => [[]]
  | '.' :: rest => [] :: splitOnDot rest
  | c :: rest =>
      match splitOnDot rest with
      | [] => [[c]]
      | g :: gs => (c :: g) :: gs

/-- Outcome of `OpenColumnFS`: the recovered next row-id and registered
column handles, a returned error (the "invalid column file name" case), or
a panic (unknown type suffix, or index size not a multiple of 16). -/
inductive OpenResult where
  | ok (nextID : Int) (handles : List (String × ColumnType))
  | err (name : String)
  | crash
deriving DecidableEq

/-- Go map insert-or-update on an association list. -/
def setAssoc {α : Type} (l : List (String × α)) (k : String) (v : α) : List (String × α) :=
  match lookupAssoc l k with
  | some _ => updateAssoc l k v
  | none => l ++ [(k, v)]

/-- The directory-scan loop of `OpenColumnFS` over the (sorted) directory
listing: skip files without the `dat` suffix, record the index file's
size, and parse `<name>.<suffix>.dat` — a name that does not split into
exactly two parts is the "invalid column file name" error, and an unknown
suffix is a panic.  Afterwards the index size yields the next row-id. -/
def openScan (indexSize : Nat) (handles : List (String × ColumnType)) :
    List (String × List Nat) → OpenResult
  | [] =>
      if indexSize % 16 = 0 then .ok ((indexSize / 16 : Nat) : Int) handles else .crash
  | (name, contents) :: rest =>
      if hasSuffixDat name then
        let indexSize2 := if name = indexFileName then contents.length else indexSize
        match splitOnDot (trimSuffixDotDat name.data) with
        | [colName, suffix] =>
            match columnSuffixToType suffix with
            | some typ => openScan indexSize2 (setAssoc handles (String.mk colName) typ) rest
            | none => .crash
        | _ => .err name
      else openScan indexSize handles rest

/-- `OpenColumnFS` from store.go, taking the directory listing (filename,
contents) in the sorted order `os.ReadDir` returns; the index handle is
pre-registered under `indexFileName`. -/
def openColumnFS (files : List (String × List Nat)) : OpenResult :=
  openScan 0 [(indexFileName, .int64)] files


/-- `columnTypeToSuffix` from store.go. -/
def columnTypeToSuffix : ColumnType → String
  | .bool => "bool"
  | .int64 => "int64"
  | .float64 => "float64"
  | .str => "str"

/-- `makeColumnFileName` from util.go. -/
def makeColumnFileName (name : String) (typ : ColumnType) : String :=
  name ++ "." ++ columnTypeToSuffix typ ++ "." ++ "dat"

theorem putLE_length (k n : Nat) : (putLE k n).length = k := by
  induction k generalizing n with
  | zero => rfl
  | succ k ih => simp [putLE, ih]

theorem getLE_putLE (k n : Nat) : getLE (putLE k n) = n % 256 ^ k := by
  induction k generalizing n with
  | zero => simp [putLE, getLE, Nat.mod_one]
  | succ k ih =>
      rw [putLE, getLE, ih, pow_succ, Nat.mul_comm (256 ^ k) 256, Nat.mod_mul]

theorem getUint64LE_put (n : Nat) (rest : List Nat) :
    getUint64LE (putUint64LE n ++ rest) = n % 2 ^ 64 := by
  have h8 : (putUint64LE n).length = 8 := putLE_length 8 n
  have htake : (putUint64LE n ++ rest).take 8 = putUint64LE n := by
    rw [List.take_append_eq_append_take, h8]
    simp only [Nat.sub_self, List.take_zero, List.append_nil]
    rw [← h8, List.take_length]
  rw [getUint64LE, htake, putUint64LE, getLE_putLE]
  norm_num

theorem indexEntry_length (i ts : Int) : (indexEntry i ts).length = 16 := by
  simp [indexEntry, putUint64LE, putLE_length]

theorem toUint64Bits_lt (i : Int) : toUint64Bits i < 2 ^ 64 := by
  unfold toUint64Bits
  omega

theorem int64OfUint64_toUint64 (i : Int) (h1 : 0 ≤ i) (h2 : i < 2 ^ 63) :
    int64OfUint64 (toUint64Bits i) = i := by
  unfold int64OfUint64 toUint64Bits
  split <;> omega

theorem wrap64_id (i : Int) (h1 : -(2 ^ 63) ≤ i) (h2 : i < 2 ^ 63) : wrap64 i = i := by
  unfold wrap64
  omega

theorem indexRowIds_nil : indexRowIds [] = [] := by
  rw [indexRowIds]
  rfl

theorem indexRowIds_cons16 (bs : List Nat) (h : 16 ≤ bs.length) :
    indexRowIds bs = int64OfUint64 (getUint64LE bs) :: indexRowIds (bs.drop 16) := by
  rw [indexRowIds, dif_neg (by omega)]

theorem indexRowIds_append_aux (n : Nat) :
    ∀ bs e : List Nat, bs.length = n → bs.length % 16 = 0 →
      indexRowIds (bs ++ e) = indexRowIds bs ++ indexRowIds e := by
  induction n using Nat.strong_induction_on with
  | _ n ih =>
      intro bs e hn h16
      by_cases hlt : bs.length < 16
      · have hb : bs = [] := List.eq_nil_of_length_eq_zero (by omega)
        subst hb
        simp [indexRowIds_nil]
      · have hlen : 16 ≤ bs.length := by omega
        rw [indexRowIds_cons16 (bs ++ e) (by simp; omega), indexRowIds_cons16 bs hlen]
        have htake : (bs ++ e).take 8 = bs.take 8 := by
          rw [List.take_append_eq_append_take, Nat.sub_eq_zero_of_le (by omega)]
          simp
        have hdrop : (bs ++ e).drop 16 = bs.drop 16 ++ e := by
          rw [List.drop_append_eq_append_drop, Nat.sub_eq_zero_of_le (by omega)]
          simp
        rw [getUint64LE, htake, ← getUint64LE, hdrop, List.cons_append]
        congr 1
        exact ih (bs.drop 16).length (by simp; omega) (bs.drop 16) e rfl (by simp; omega)

theorem indexRowIds_append (bs e : List Nat) (h16 : bs.length % 16 = 0) :
    indexRowIds (bs ++ e) = indexRowIds bs ++ indexRowIds e :=
  indexRowIds_append_aux bs.length bs e rfl h16

theorem indexRowIds_entry (i ts : Int) :
    indexRowIds (indexEntry i ts) = [int64OfUint64 (toUint64Bits i)] := by
  have hlen : (indexEntry i ts).length = 16 := indexEntry_length i ts
  have hget : getUint64LE (indexEntry i ts) = toUint64Bits i := by
    rw [indexEntry, getUint64LE_put]
    have := toUint64Bits_lt i
    omega
  have hdrop : (indexEntry i ts).drop 16 = [] :=
    List.eq_nil_of_length_eq_zero (by simp [hlen])
  rw [indexRowIds_cons16 (indexEntry i ts) (by omega), hget, hdrop, indexRowIds_nil]

theorem registerColumns_state (fields : List (String × GoValue)) :
    ∀ fs : ColumnFS, ((registerColumns fs fields).1).nextID = fs.nextID
      ∧ ((registerColumns fs fields).1).indexHandle = fs.indexHandle := by
  induction fields with
  | nil => intro fs; exact ⟨rfl, rfl⟩
  | cons p rest ih =>
      intro fs
      obtain ⟨name, v⟩ := p
      by_cases hr : isReservedName name = true
      · simp [registerColumns, hr]
      · simp only [registerColumns, hr, Bool.false_eq_true, if_false]
        cases hl : lookupAssoc fs.columnHandles name with
        | some h => exact ih fs
        | none => exact ih _

theorem registerColumns_none (fields : List (String × GoValue)) :
    ∀ fs : ColumnFS, (∀ p ∈ fields, isReservedName p.1 = false) →
      (registerColumns fs fields).2 = none := by
  induction fields with
  | nil => intro fs _; rfl
  | cons p rest ih =>
      intro fs hok
      obtain ⟨name, v⟩ := p
      have hr : isReservedName name = false := hok (name, v) (by simp)
      simp only [registerColumns, hr, Bool.false_eq_true, if_false]
      cases hl : lookupAssoc fs.columnHandles name with
      | some h => exact ih fs (fun q hq => hok q (by simp [hq]))
      | none => exact ih _ (fun q hq => hok q (by simp [hq]))

theorem writeFields_state (colOk : String → Bool) (fields : List (String × GoValue)) :
    ∀ (fs : ColumnFS) (i : Int),
      ((writeFields colOk fs i fields).state).nextID = fs.nextID
      ∧ ((writeFields colOk fs i fields).state).indexHandle = fs.indexHandle := by
  induction fields with
  | nil => intro fs i; exact ⟨rfl, rfl⟩
  | cons p rest ih =>
      intro fs i
      obtain ⟨name, v⟩ := p
      simp only [writeFields]
      cases hl : lookupAssoc fs.columnHandles name with
      | none => exact ⟨rfl, rfl⟩
      | some h =>
          dsimp only
          cases he : indexedWriteData h.typ i v with
          | none => exact ⟨rfl, rfl⟩
          | some bytes =>
              dsimp only
              by_cases hc : colOk name = true
              · rw [if_pos hc]
                exact ih _ i
              · rw [if_neg hc]
                exact ⟨rfl, rfl⟩

theorem writeColumns_ok (colOk : String → Bool) (fs : ColumnFS)
    (fields : List (String × GoValue)) (ts : Int) (fs2 : ColumnFS)
    (h : writeColumns true colOk fs fields ts = .ok fs2) :
    fs2.nextID = wrap64 (fs.nextID + 1)
    ∧ fs2.indexHandle = fs.indexHandle ++ indexEntry fs.nextID ts := by
  unfold writeColumns at h
  rcases hreg : registerColumns fs fields with ⟨fs1, oe⟩
  rw [hreg] at h
  have hst := registerColumns_state fields fs
  rw [hreg] at hst
  dsimp only at hst
  cases oe with
  | some e => simp at h
  | none =>
      simp only [if_true] at h
      cases hwf : writeFields colOk
          { fs1 with indexHandle := fs1.indexHandle ++ indexEntry fs1.nextID ts }
          fs1.nextID fields with
      | ok fs3 =>
          rw [hwf] at h
          have hwst := writeFields_state colOk fields
            { fs1 with indexHandle := fs1.indexHandle ++ indexEntry fs1.nextID ts } fs1.nextID
          rw [hwf] at hwst
          simp only [WriteOutcome.state] at hwst
          simp only [WriteOutcome.ok.injEq] at h
          subst h
          refine ⟨?_, ?_⟩
          · simp only [hwst.1, hst.1]
          · simp only [hwst.2, hst.1, hst.2]
      | fail e fs3 => rw [hwf] at h; simp at h
      | crash fs3 => rw [hwf] at h; simp at h

theorem runAppends_ok (recs : List (List (String × GoValue) × Int)) :
    ∀ fs fs2 : ColumnFS,
      runAppends fs recs = some fs2 →
      0 ≤ fs.nextID → fs.nextID + recs.length < 2 ^ 63 →
      fs2.nextID = fs.nextID + recs.length
      ∧ fs2.indexHandle.length = fs.indexHandle.length + 16 * recs.length
      ∧ (fs.indexHandle.length % 16 = 0 →
          indexRowIds fs2.indexHandle
            = indexRowIds fs.indexHandle
              ++ (List.range' fs.nextID.toNat recs.length).map Int.ofNat) := by
  induction recs with
  | nil =>
      intro fs fs2 hrun _ _
      simp only [runAppends, Option.some.injEq] at hrun
      subst hrun
      simp
  | cons r rest ih =>
      intro fs fs2 hrun h0 hub
      obtain ⟨fields, ts⟩ := r
      simp only [runAppends] at hrun
      simp only [List.length_cons] at hub
      cases hw : writeColumns true (fun _ => true) fs fields ts with
      | ok fsb =>
          rw [hw] at hrun
          dsimp only at hrun
          obtain ⟨hbn, hbi⟩ := writeColumns_ok (fun _ => true) fs fields ts fsb hw
          have hbn2 : fsb.nextID = fs.nextID + 1 := by
            rw [hbn, wrap64_id (fs.nextID + 1) (by omega) (by omega)]
          have hbl : fsb.indexHandle.length = fs.indexHandle.length + 16 := by
            rw [hbi]
            simp [indexEntry_length]
          obtain ⟨c1, c2, c3⟩ := ih fsb fs2 hrun (by omega) (by omega)
          refine ⟨by simp only [List.length_cons]; omega, ?_, ?_⟩
          · rw [c2, hbl]
            simp only [List.length_cons]
            omega
          · intro h16
            have h16b : fsb.indexHandle.length % 16 = 0 := by omega
            rw [c3 h16b, hbi, indexRowIds_append fs.indexHandle _ h16, indexRowIds_entry,
              int64OfUint64_toUint64 fs.nextID h0 (by omega)]
            have hnat : fsb.nextID.toNat = fs.nextID.toNat + 1 := by omega
            rw [hnat]
            have hr : List.range' fs.nextID.toNat (((fields, ts) :: rest).length)
                = fs.nextID.toNat :: List.range' (fs.nextID.toNat + 1) rest.length := by
              simp [List.range'_succ]
            rw [hr, List.map_cons]
            have hofn : Int.ofNat fs.nextID.toNat = fs.nextID := by
              rw [Int.ofNat_eq_natCast, Int.toNat_of_nonneg h0]
            rw [hofn]
            simp
      | fail e fsb => rw [hw] at hrun; simp at hrun
      | crash fsb => rw [hw] at hrun; simp at hrun

/-- C3: the append half of the claim holds, the reopen half fails on the
code.  After N successful appends from an empty store the index file holds
exactly N 16-byte entries with row-ids 0,…,N-1 in order, the in-memory next
row-id is N, and the size/16 recovery computation would yield N — but
`OpenColumnFS` never reaches it on a non-empty directory: its listing loop
is missing a `continue` after recording the index file's size, so the name
`__index.dat` falls through to the `<name>.<suffix>.dat` parser and reopen
fails with the "invalid column file name" error (last conjunct, on the
directory produced by one append of column `a`). -/
theorem appendRunIndexInvariant (recs : List (List (String × GoValue) × Int)) (fs2 : ColumnFS)
    (hrun : runAppends emptyFS recs = some fs2)
    (hlen : (recs.length : Int) < 2 ^ 63) :
    fs2.nextID = recs.length
    ∧ fs2.indexHandle.length = 16 * recs.length
    ∧ indexRowIds fs2.indexHandle = (List.range recs.length).map Int.ofNat
    ∧ recoverNextID fs2.indexHandle = some (recs.length : Int)
    ∧ openColumnFS [(indexFileName, indexEntry 0 100),
        (makeColumnFileName "a" .int64, int64Entry 0 5)] = .err indexFileName := by
  obtain ⟨c1, c2, c3⟩ := runAppends_ok recs emptyFS fs2 hrun (by simp [emptyFS])
    (by simp [emptyFS]; omega)
  have hids : indexRowIds fs2.indexHandle = (List.range recs.length).map Int.ofNat := by
    rw [c3 (by simp [emptyFS])]
    simp only [emptyFS, indexRowIds_nil, List.nil_append]
    rw [List.range_eq_range']
    rfl
  refine ⟨by simpa [emptyFS] using c1, by simpa [emptyFS] using c2, hids, ?_, by decide⟩
  rw [recoverNextID]
  have hc2 : fs2.indexHandle.length = 16 * recs.length := by simpa [emptyFS] using c2
  rw [if_pos (by omega)]
  congr 1
  omega

/-- C3 witness: two successful appends of column `a`. -/
theorem appendRunIndexInvariantWitness :
    (⟨2, indexEntry 0 100 ++ indexEntry 1 200,
        [("a", ⟨.int64, int64Entry 0 5 ++ int64Entry 1 6⟩)]⟩ : ColumnFS).nextID
      = ([([("a", GoValue.vInt 5)], 100), ([("a", GoValue.vInt 6)], 200)] :
          List (List (String × GoValue) × Int)).length
    ∧ (⟨2, indexEntry 0 100 ++ indexEntry 1 200,
        [("a", ⟨.int64, int64Entry 0 5 ++ int64Entry 1 6⟩)]⟩ : ColumnFS).indexHandle.length
      = 16 * ([([("a", GoValue.vInt 5)], 100), ([("a", GoValue.vInt 6)], 200)] :
          List (List (String × GoValue) × Int)).length
    ∧ indexRowIds (⟨2, indexEntry 0 100 ++ indexEntry 1 200,
        [("a", ⟨.int64, int64Entry 0 5 ++ int64Entry 1 6⟩)]⟩ : ColumnFS).indexHandle
      = (List.range ([([("a", GoValue.vInt 5)], 100), ([("a", GoValue.vInt 6)], 200)] :
          List (List (String × GoValue) × Int)).length).map Int.ofNat
    ∧ recoverNextID (⟨2, indexEntry 0 100 ++ indexEntry 1 200,
        [("a", ⟨.int64, int64Entry 0 5 ++ int64Entry 1 6⟩)]⟩ : ColumnFS).indexHandle
      = some (([([("a", GoValue.vInt 5)], 100), ([("a", GoValue.vInt 6)], 200)] :
          List (List (String × GoValue) × Int)).length : Int)
    ∧ openColumnFS [(indexFileName, indexEntry 0 100),
        (makeColumnFileName "a" .int64, int64Entry 0 5)] = .err indexFileName :=
  appendRunIndexInvariant [([("a", GoValue.vInt 5)], 100), ([("a", GoValue.vInt 6)], 200)]
    ⟨2, indexEntry 0 100 ++ indexEntry 1 200,
      [("a", ⟨.int64, int64Entry 0 5 ++ int64Entry 1 6⟩)]⟩
    (by decide) (by decide)

/-- C7: the claim fails on the code.  Writing a value whose runtime type
does not match the column's declared type does not produce a type-mismatch
error: `IndexedWrite` panics on its type assertions (`v.(bool)`,
`v.(string)`) or inside `toUint64` / `toFloat64` (`none` here models that
panic), for every mismatched combination. -/
theorem indexedWriteTypeMismatchCrashes :
    indexedWriteData .bool 0 (.vStr [104, 105]) = none
    ∧ indexedWriteData .bool 0 (.vInt 1) = none
    ∧ indexedWriteData .int64 0 (.vBool true) = none
    ∧ indexedWriteData .int64 0 (.vStr [49]) = none
    ∧ indexedWriteData .float64 0 (.vInt 3) = none
    ∧ indexedWriteData .str 0 (.vInt 1) = none := by decide

/-- C8 counterexample: after an append in which the index entry for
row-id 0 was written but the column write failed, the in-memory next
row-id is still 0 (the claim says it advances to 1), and the next
successful append in the same process reuses row-id 0 — the index file
then holds the row-ids [0, 0]. -/
theorem failedAppendDoesNotAdvanceNextID :
    writeColumns true (fun _ => false) emptyFS [("a", GoValue.vInt 5)] 7
      = .fail (.writeFailed "a") ⟨0, indexEntry 0 7, [("a", ⟨.int64, []⟩)]⟩
    ∧ indexRowIds ((writeColumns true (fun _ => true)
        ((writeColumns true (fun _ => false) emptyFS [("a", GoValue.vInt 5)] 7).state)
        [("a", GoValue.vInt 6)] 9).state).indexHandle = [0, 0] := by
  refine ⟨by decide, ?_⟩
  have hbytes : ((writeColumns true (fun _ => true)
      ((writeColumns true (fun _ => false) emptyFS [("a", GoValue.vInt 5)] 7).state)
      [("a", GoValue.vInt 6)] 9).state).indexHandle
      = indexEntry 0 7 ++ indexEntry 0 9 := by decide
  rw [hbytes, indexRowIds_append _ _ (by decide), indexRowIds_entry, indexRowIds_entry]
  decide

/-- C8 (amended): when the index entry was written successfully and a
column write then fails, the in-memory next row-id does NOT advance (the
same process's next append reuses it); the row-id is consumed only in the
durable sense that the index file grew by one entry, so the size/16
recovery computation over the new index contents yields old-next-row-id
plus one. -/
theorem failedColumnWriteKeepsNextID (colOk : String → Bool) (fs : ColumnFS)
    (fields : List (String × GoValue)) (ts : Int) (e : GoError) (fs2 : ColumnFS)
    (hnames : ∀ p ∈ fields, isReservedName p.1 = false)
    (h : writeColumns true colOk fs fields ts = .fail e fs2) :
    fs2.nextID = fs.nextID
    ∧ fs2.indexHandle = fs.indexHandle ++ indexEntry fs.nextID ts
    ∧ (fs.indexHandle.length % 16 = 0 →
        recoverNextID fs2.indexHandle = some ((fs.indexHandle.length / 16 + 1 : Nat) : Int)) := by
  unfold writeColumns at h
  rcases hreg : registerColumns fs fields with ⟨fs1, oe⟩
  rw [hreg] at h
  have hnone := registerColumns_none fields fs hnames
  rw [hreg] at hnone
  dsimp only at hnone
  subst hnone
  simp only [if_true] at h
  have hst := registerColumns_state fields fs
  rw [hreg] at hst
  dsimp only at hst
  cases hwf : writeFields colOk
      { fs1 with indexHandle := fs1.indexHandle ++ indexEntry fs1.nextID ts }
      fs1.nextID fields with
  | ok fs3 => rw [hwf] at h; simp at h
  | crash fs3 => rw [hwf] at h; simp at h
  | fail e2 fs3 =>
      rw [hwf] at h
      have hwst := writeFields_state colOk fields
        { fs1 with indexHandle := fs1.indexHandle ++ indexEntry fs1.nextID ts } fs1.nextID
      rw [hwf] at hwst
      simp only [WriteOutcome.state] at hwst
      simp only [WriteOutcome.fail.injEq] at h
      obtain ⟨he, hfs⟩ := h
      subst hfs
      refine ⟨by rw [hwst.1, hst.1], by rw [hwst.2, hst.1, hst.2], fun h16 => ?_⟩
      rw [recoverNextID, hwst.2, hst.1, hst.2]
      have hl : (fs.indexHandle ++ indexEntry fs.nextID ts).length
          = fs.indexHandle.length + 16 := by
        simp [indexEntry_length]
      rw [hl, if_pos (by omega)]
      congr 1
      omega

/-- C8 (amended) witness: the failed single-column append from the
counterexample, against the empty store. -/
theorem failedColumnWriteKeepsNextIDWitness :
    (⟨0, indexEntry 0 7, [("a", ⟨.int64, []⟩)]⟩ : ColumnFS).nextID = emptyFS.nextID
    ∧ (⟨0, indexEntry 0 7, [("a", ⟨.int64, []⟩)]⟩ : ColumnFS).indexHandle
        = emptyFS.indexHandle ++ indexEntry emptyFS.nextID 7
    ∧ (emptyFS.indexHandle.length % 16 = 0 →
        recoverNextID (⟨0, indexEntry 0 7, [("a", ⟨.int64, []⟩)]⟩ : ColumnFS).indexHandle
          = some ((emptyFS.indexHandle.length / 16 + 1 : Nat) : Int)) :=
  failedColumnWriteKeepsNextID (fun _ => false) emptyFS [("a", GoValue.vInt 5)] 7
    (.writeFailed "a") ⟨0, indexEntry 0 7, [("a", ⟨.int64, []⟩)]⟩
    (by decide) (by decide)

/-- C4: confirmed.  The `ConditionGreaterThan` row of the `conditionals`
matrix installs `anyNotEquals[T]()` for int64, float64 and string — the
very comparison the `ConditionNotEquals` row installs — so GreaterThan is
extensionally inequality (true exactly when the operands differ, as the
last conjunct shows for int64: it does not test row-value > literal), and
the GreaterThan row has no entry for bool. -/
theorem greaterThanIsNotEquals :
    conditionals .greaterThan .int64 = conditionals .notEquals .int64
    ∧ conditionals .greaterThan .float64 = conditionals .notEquals .float64
    ∧ conditionals .greaterThan .str = conditionals .notEquals .str
    ∧ conditionals .greaterThan .bool = none
    ∧ conditionals .greaterThan .int64 = some anyNotEqualsInt64
    ∧ (∀ x y : Int, anyNotEqualsInt64 (.vInt x) (.vInt y) = some (decide (x ≠ y))) := by
  refine ⟨rfl, rfl, rfl, rfl, rfl, fun x y => ?_⟩
  simp [anyNotEqualsInt64, decide_not]

/-- ASCII lower-casing of one byte, the only folding relevant to
`strings.EqualFold(v, "true")` (no non-ASCII rune case-folds to a letter
of "true"). -/
def toLowerByte (b : Nat) : Nat := if 65 ≤ b ∧ b ≤ 90 then b + 32 else b

/-- `strings.EqualFold(v, "true")` on the byte string `v`. -/
def equalFoldTrue (s : List Nat) : Bool :=
  s.map toLowerByte == [116, 114, 117, 101]

/-- The digits-accumulation part of `strconv.ParseInt(s, 10, 64)`:
`none` when a non-digit byte occurs. -/
def decDigitsToNat (ds : List Nat) : Option Nat :=
  ds.foldl
    (fun acc d =>
      match acc with
      | none => none
      | some n => if 48 ≤ d ∧ d ≤ 57 then some (n * 10 + (d - 48)) else none)
    (some 0)

/-- `strconv.ParseInt(s, 10, 64)`: optional sign, at least one digit, all
digits, within the int64 range; `none` models the returned error. -/
def parseIntDecimal (s : List Nat) : Option Int :=
  let sd : Bool × List Nat :=
    match s with
    | 43 :: rest => (false, rest)
    | 45 :: rest => (true, rest)
    | _ => (false, s)
  if sd.2 = [] then none
  else
    match decDigitsToNat sd.2 with
    | none => none
    | some n =>
        let v : Int := if sd.1 then -(n : Int) else (n : Int)
        if v < -(2 ^ 63) ∨ 2 ^ 63 ≤ v then none else some v

/-- Decimal rendering of a natural number (ASCII bytes). -/
def natToDecimalBytes (n : Nat) : List Nat :=
  if n = 0 then [48] else (Nat.digits 10 n).reverse.map (· + 48)

/-- `fmt.Sprintf("%d", v)` for an int64 value. -/
def intToDecimalBytes (i : Int) : List Nat :=
  if i < 0 then 45 :: natToDecimalBytes (-i).toNat else natToDecimalBytes i.toNat

/-- The bit pattern of the `float64` constant 1. -/
def float64OneBits : Nat := 0x3FF0000000000000

/-- The four IEEE-754 conversion primitives the coercion layer calls
(`int64(math.Round(f))`, `float64(uint64)`, `strconv.ParseFloat` with its
parse-error-to-0 collapse, `fmt.Sprintf("%f")`), over bit patterns.  They
are taken as parameters: every theorem below is quantified over them (so
it holds in particular for the real IEEE implementations), and no claim
depends on their values. -/
structure FloatPrims where
  roundToInt64 : Nat → Int
  ofUint64 : Nat → Nat
  parseFloat : List Nat → Nat
  format : Nat → List Nat

/-- `valueToBool` from util.go: numeric values compare against zero with
the native `!=` (on float64 that is IEEE: NaN is truthy, negative zero is
falsy), strings case-fold against "true". -/
def valueToBool : GoValue → Bool
  | .vBool b => b
  | .vInt i => !decide (i = 0)
  | .vFloat bits => !floatEqBits bits 0
  | .vStr s => equalFoldTrue s

/-- `valueToInt64` from util.go (floats round half away from zero via
`math.Round`; unparsable strings become 0). -/
def valueToInt64 (fp : FloatPrims) : GoValue → Int
  | .vBool b => if b then 1 else 0
  | .vInt i => i
  | .vFloat bits => fp.roundToInt64 bits
  | .vStr s => (parseIntDecimal s).getD 0

/-- `valueToFloat64` from util.go (integers pass through `toUint64` before
the float conversion; unparsable strings become 0). -/
def valueToFloat64 (fp : FloatPrims) : GoValue → Nat
  | .vBool b => if b then float64OneBits else 0
  | .vInt i => fp.ofUint64 (toUint64Bits i)
  | .vFloat bits => bits
  | .vStr s => fp.parseFloat s

/-- `valueToString` from util.go. -/
def valueToString (fp : FloatPrims) : GoValue → List Nat
  | .vBool b => if b then [116, 114, 117, 101] else [102, 97, 108, 115, 101]
  | .vInt i => intToDecimalBytes i
  | .vFloat bits => fp.format bits
  | .vStr s => s

/-- `castValueToColumnType` from util.go: total, never-failing coercion of
a filter literal into the column's type. -/
def castValueToColumnType (fp : FloatPrims) (v : GoValue) : ColumnType → GoValue
  | .bool => .vBool (valueToBool v)
  | .str => .vStr (valueToString fp v)
  | .int64 => .vInt (valueToInt64 fp v)
  | .float64 => .vFloat (valueToFloat64 fp v)

/-- `Filter` from query.go (`attr` models the `Attribute` field; `attribute`
is reserved in Lean). -/
structure FilterM where
  attr : String
  condition : ConditionType
  value : GoValue

/-- `Query` from query.go (the aggregator kind and group-by are unused by
the scan; only the aggregator attribute influences which readers open). -/
structure QueryM where
  filters : List FilterM
  aggregatorAttribute : String

/-- The keys of the `cols` set built at the start of `Query`: every
filter's attribute, plus the aggregator attribute when non-empty. -/
def colsOf (q : QueryM) : List String :=
  q.filters.map FilterM.attr
    ++ (if q.aggregatorAttribute = "" then [] else [q.aggregatorAttribute])

/-- One step of the reader-opening loop `for col := range cols`: a column
with no handle is skipped (`if ch == nil { continue }`), otherwise a fresh
reader over the column's file is stored under the column's name. -/
def buildStep (fs : ColumnFS) (m : String → Option ColumnReader) (c : String) :
    String → Option ColumnReader :=
  match lookupHandle fs c with
  | none => m
  | some h => fun a => if a = c then some (mkReader h.typ h.file) else m a

/-- The `cf` reader map after iterating the `cols` set in the order
`order` (a Go map iterates its keys in unspecified order; `order` makes
that explicit). -/
def buildReaders (fs : ColumnFS) (order : List String) : String → Option ColumnReader :=
  order.foldl (buildStep fs) (fun _ => none)

/-- A result row (`map[string]any` written in insertion order with
last-write-wins update, matching Go map semantics as a key-value
mapping). -/
def Row := List (String × GoValue)

/-- Go map assignment `row[k] = v`. -/
def rowInsert : List (String × GoValue) → String → GoValue → List (String × GoValue)
  | [], k, v => [(k, v)]
  | (k2, v2) :: rest, k, v =>
      if k = k2 then (k2, v) :: rest else (k2, v2) :: rowInsert rest k v

/-- Outcome of running all filters of one row: a Go panic, a returned
error, or pass/reject together with the updated reader map. -/
inductive FilterStep where
  | crash
  | fail (e : GoError)
  | rejected (m : String → Option ColumnReader)
  | passed (m : String → Option ColumnReader) (row : List (String × GoValue))

/-- The inner filter loop of `ColumnarStore.Query` for row-id `i`: look up
the filter's reader (`cf[f.Attribute]` is nil for an absent column, and
calling `SeekToIndex` on it dereferences a nil pointer — crash), seek,
fail the row on "absent", otherwise coerce the literal to the reader's
column type and dispatch on the comparison matrix (a missing cell is a nil
function call — crash); a passing filter records the row value under the
attribute. -/
def applyFilters (fp : FloatPrims) (i : Int) :
    List FilterM → (String → Option ColumnReader) → List (String × GoValue) → FilterStep
  | [], m, row => .passed m row
  | f :: rest, m, row =>
      match m f.attr with
      | none => .crash
      | some cr =>
          match seekToIndex cr i with
          | (.crashBackward, _) => .crash
          | (.crashMakeSlice, _) => .crash
          | (.fail e, _) => .fail e
          | (.ok rv, cr2) =>
              let m2 : String → Option ColumnReader :=
                fun a => if a = f.attr then some cr2 else m a
              match rv with
              | none => .rejected m2
              | some rowValue =>
                  match conditionals f.condition cr.typ with
                  | none => .crash
                  | some cf =>
                      match cf rowValue (castValueToColumnType fp f.value cr.typ) with
                      | none => .crash
                      | some true =>
                          applyFilters fp i rest m2 (rowInsert row f.attr rowValue)
                      | some false => .rejected m2

/-- Outcome of a whole `Query` call. -/
inductive QueryOut where
  | rows (rs : List (List (String × GoValue)))
  | fail (e : GoError)
  | crash
deriving DecidableEq

/-- The row scan `for i := range lastID` of `ColumnarStore.Query`: each
candidate row is seeded with `__index = i` and `__timestamp = 0`, and rows
passing every filter are appended in ascending row-id order. -/
def queryLoop (fp : FloatPrims) (filters : List FilterM) :
    Nat → Int → (String → Option ColumnReader) →
      List (List (String × GoValue)) → QueryOut
  | 0, _, _, acc => .rows acc.reverse
  | n + 1, i, m, acc =>
      match applyFilters fp i filters m
          [("__index", .vInt i), ("__timestamp", .vInt 0)] with
      | .crash => .crash
      | .fail e => .fail e
      | .rejected m2 => queryLoop fp filters n (i + 1) m2 acc
      | .passed m2 row => queryLoop fp filters n (i + 1) m2 (row :: acc)

/-- `ColumnarStore.Query` from store.go: snapshot `lastID`, open one
reader per referenced column (iterating the `cols` set in the order
`order`) and scan row-ids 0,…,lastID-1. -/
def queryRun (fp : FloatPrims) (fs : ColumnFS) (q : QueryM) (order : List String) : QueryOut :=
  queryLoop fp q.filters fs.nextID.toNat 0 (buildReaders fs order) []

/-- C5: the claim fails on the code.  A filter on attribute "missing", for
which no column handle exists, makes the reader-opening loop skip the
attribute (`if ch == nil { continue }`), so `cf["missing"]` is a nil
`*ColumnReader`; on the first scanned row-id (here the store holds one
row) `cr.SeekToIndex(i)` dereferences the nil pointer and Query panics
instead of completing with that filter rejecting every row — for every
interpretation of the IEEE primitives. -/
theorem queryMissingColumnCrashes :
    ∀ fp : FloatPrims,
      queryRun fp ⟨1, indexEntry 0 7, []⟩
        ⟨[⟨"missing", .equals, .vInt 1⟩], ""⟩ ["missing"] = .crash :=
  fun _ => rfl

theorem buildReaders_go (fs : ColumnFS) (order : List String) :
    ∀ (m0 : String → Option ColumnReader) (a : String),
      order.foldl (buildStep fs) m0 a
        = if a ∈ order ∧ (lookupHandle fs a).isSome
          then (lookupHandle fs a).map (fun h => mkReader h.typ h.file)
          else m0 a := by
  induction order with
  | nil => intro m0 a; simp
  | cons c rest ih =>
      intro m0 a
      rw [List.foldl_cons, ih]
      by_cases hmem : a ∈ rest ∧ (lookupHandle fs a).isSome
      · rw [if_pos hmem, if_pos ⟨List.mem_cons_of_mem c hmem.1, hmem.2⟩]
      · rw [if_neg hmem]
        by_cases hac : a = c
        · subst hac
          cases hh : lookupHandle fs a with
          | none => simp [buildStep, hh]
          | some h => simp [buildStep, hh]
        · have hlhs : buildStep fs m0 c a = m0 a := by
            unfold buildStep
            cases hh : lookupHandle fs c with
            | none => rfl
            | some h => simp [hac]
          rw [hlhs, if_neg]
          intro hc
          rcases List.mem_cons.mp hc.1 with h1 | h1
          · exact hac h1
          · exact hmem ⟨h1, hc.2⟩

/-- C10: confirmed.  For a fixed store state and a fixed query, the result
of Query does not depend on the iteration order of the `cols` map (the
only run-to-run variation in the scan: readers are opened in Go map range
order) — any two enumerations of the referenced-column set, and hence any
two executions, produce identical result sequences; quantified over the
IEEE primitives as well. -/
theorem queryDeterministic (fp : FloatPrims) (fs : ColumnFS) (q : QueryM)
    (o1 o2 : List String)
    (h1 : o1.Perm (colsOf q).dedup) (h2 : o2.Perm (colsOf q).dedup) :
    queryRun fp fs q o1 = queryRun fp fs q o2 := by
  have hmm : ∀ a, a ∈ o1 ↔ a ∈ o2 := fun a => by
    rw [h1.mem_iff, h2.mem_iff]
  have hbr : buildReaders fs o1 = buildReaders fs o2 := by
    funext a
    rw [buildReaders, buildReaders, buildReaders_go, buildReaders_go]
    by_cases hm : a ∈ o1 ∧ (lookupHandle fs a).isSome
    · rw [if_pos hm, if_pos ⟨(hmm a).mp hm.1, hm.2⟩]
    · rw [if_neg hm, if_neg fun hc => hm ⟨(hmm a).mpr hc.1, hc.2⟩]
  rw [queryRun, queryRun, hbr]

/-- Zero-valued instantiation of the IEEE primitives for the witness. -/
def fpZero : FloatPrims := ⟨fun _ => 0, fun _ => 0, fun _ => 0, fun _ => []⟩

/-- C10 witness: a one-row store with an int64 column `a`, a query
filtering on `a` with aggregator attribute `b`, and the two possible
iteration orders of the column set {a, b}. -/
theorem queryDeterministicWitness :
    queryRun fpZero ⟨1, indexEntry 0 50, [("a", ⟨.int64, int64Entry 0 7⟩)]⟩
        ⟨[⟨"a", .equals, .vInt 7⟩], "b"⟩ ["a", "b"]
      = queryRun fpZero ⟨1, indexEntry 0 50, [("a", ⟨.int64, int64Entry 0 7⟩)]⟩
        ⟨[⟨"a", .equals, .vInt 7⟩], "b"⟩ ["b", "a"] :=
  queryDeterministic fpZero ⟨1, indexEntry 0 50, [("a", ⟨.int64, int64Entry 0 7⟩)]⟩
    ⟨[⟨"a", .equals, .vInt 7⟩], "b"⟩ ["a", "b"] ["b", "a"] (by decide) (by decide)
